import Mathlib

/-!
Verification of the botcoder core against its specification.

The development shallowly embeds the Rust sources:
  * `src/parser.rs`   — `ResponseParser` (tool-call recovery from model text)
  * `src/executor.rs` — `ToolExecutor` (file read, delta patching, command run)
  * `src/limiter.rs`  — `TPMLimiter` (sliding-window token rate limiter)

Strings are modelled as Lean `String` (lists of characters).  Rust byte
offsets become character offsets; for valid UTF-8 the two agree on substring
occurrence and on the result of a splice, so the spliced contents coincide.
All definitions are executable so that concrete inputs evaluate by `decide`.
-/

/-! ## Models of the Rust standard-library string operations used by the code -/

/-- Rust `char::is_whitespace`, restricted to the ASCII whitespace characters
that the claims exercise (the full Unicode set is irrelevant here). -/
def rustIsWs (c : Char) : Bool :=
  c = ' ' || c = '\t' || c = '\n' || c = '\r' || c = '\x0b' || c = '\x0c'

/-- Trim of a character list on both ends, as Rust `str::trim`. -/
def trimChars (l : List Char) : List Char :=
  ((l.dropWhile rustIsWs).reverse.dropWhile rustIsWs).reverse

/-- Rust `str::trim`. -/
def rustTrim (s : String) : String :=
  String.mk (trimChars s.data)

/-- Rust `str::starts_with` for a string pattern. -/
def strStartsWith (s pre : String) : Bool :=
  pre.data.isPrefixOf s.data

/-- Lowest index at which `needle` occurs in `hay` (Rust `str::find` for a
string pattern), on character lists. -/
def listFind? : List Char → List Char → Option Nat
  | [], needle => if needle.isEmpty then some 0 else none
  | c :: t, needle =>
    if needle.isPrefixOf (c :: t) then some 0 else (listFind? t needle).map (· + 1)

/-- Rust `str::find`. -/
def strFind? (hay needle : String) : Option Nat :=
  listFind? hay.data needle.data

/-- Rust `str::contains` for a string pattern. -/
def containsSub (hay needle : String) : Bool :=
  (strFind? hay needle).isSome

/-- Rust slice `s[a..]` (character offsets). -/
def strDrop (s : String) (a : Nat) : String :=
  String.mk (s.data.drop a)

/-- Rust slice `s[..a]` (character offsets). -/
def strTake (s : String) (a : Nat) : String :=
  String.mk (s.data.take a)

/-- Rust slice `s[a..b]` (character offsets). -/
def strSlice (s : String) (a b : Nat) : String :=
  String.mk ((s.data.take b).drop a)

/-- Rust `str::trim_matches(c)`: strip every leading and trailing copy of a
single character. -/
def trimMatchesChar (c : Char) (s : String) : String :=
  String.mk (((s.data.dropWhile (· = c)).reverse.dropWhile (· = c)).reverse)

/-- One step of Rust `str::replace`, fuelled by the haystack length so that the
recursion is structural (the fuel never runs out when it starts at the
haystack's length). -/
def replaceF (rep pat : List Char) : Nat → List Char → List Char
  | 0, _ => []
  | _, [] => []
  | fuel + 1, c :: t =>
    if pat ≠ [] ∧ pat.isPrefixOf (c :: t) then
      rep ++ replaceF rep pat fuel (t.drop (pat.length - 1))
    else
      c :: replaceF rep pat fuel t

/-- Rust `str::replace` (replace every non-overlapping occurrence, left to
right). -/
def rustReplace (s pat rep : String) : String :=
  String.mk (replaceF rep.data pat.data s.data.length s.data)

/-- Split a character list at every newline (Rust `str::split('\n')`). -/
def splitOnNl : List Char → List (List Char)
  | [] => [[]]
  | c :: t =>
    if c = '\n' then [] :: splitOnNl t
    else
      match splitOnNl t with
      | [] => [[c]]
      | h :: r => (c :: h) :: r

/-- Drop one trailing `'\r'` (the `\r\n` handling of Rust `str::lines`). -/
def stripCR (l : List Char) : List Char :=
  if l.getLast? = some '\r' then l.dropLast else l

/-- Rust `str::lines` on the split pieces: every piece but the last was
followed by a newline, so its trailing `'\r'` is stripped; a final empty piece
(trailing newline, or empty input) yields no line. -/
def rustLinesAux : List (List Char) → List String
  | [] => []
  | [l] => if l.isEmpty then [] else [String.mk l]
  | l :: rest => String.mk (stripCR l) :: rustLinesAux rest

/-- Rust `str::lines`. -/
def rustLines (s : String) : List String :=
  rustLinesAux (splitOnNl s.data)

/-- Rust `s.splitn(2, sep)` for a string separator: split at the first
occurrence only. -/
def splitn2 (sep s : String) : List String :=
  match strFind? s sep with
  | none => [s]
  | some p => [strTake s p, strDrop s (p + sep.data.length)]

/-! ## `src/parser.rs` — `ResponseParser` -/

namespace ResponseParser

/-- The preprocessing of `extract_tools`: strip fenced code-block markers by
literal replacement, in the source's order. -/
def cleanText (text : String) : String :=
  rustReplace (rustReplace (rustReplace (rustReplace text "```rust" "") "```sh" "") "```bash" "") "```" ""

/-- The marker test `lines[i].trim().starts_with(m)` used by the scanner. -/
def isMarkerLine (m l : String) : Bool :=
  strStartsWith (rustTrim l) m

/-- The first skip loop of `extract_delta_format`: advance until a line whose
trim starts with `m`, returning the lines after that marker line, or `none`
when the input ends first (the `break` case). -/
def dropToMarker (m : String) : List String → Option (List String)
  | [] => none
  | l :: t => if isMarkerLine m l then some t else dropToMarker m t

/-- A collecting loop of `extract_delta_format`: accumulate `line ++ "\n"` for
every line until one whose trim starts with `m`, returning the accumulated
content and the lines after the marker, or `none` at end of input. -/
def takeToMarker (m : String) : List String → Option (String × List String)
  | [] => none
  | l :: t =>
    if isMarkerLine m l then some ("", t)
    else (takeToMarker m t).map (fun p => (l ++ "\n" ++ p.1, p.2))

/-- The body of one `CHANGE:` block scan: find `<<<<<<< CURRENT`, collect up
to `=======`, collect up to `>>>>>>> NEW`; `none` mirrors the `break` on a
missing marker. -/
def parseBlock (rest : List String) : Option (String × String × List String) :=
  (dropToMarker "<<<<<<< CURRENT" rest).bind fun r1 =>
    (takeToMarker "=======" r1).bind fun p2 =>
      (takeToMarker ">>>>>>> NEW" p2.2).bind fun p3 =>
        some (p2.1, p3.1, p3.2)

/-- The serialized tool emitted for one completed block:
`format!("{}:::{}\n{}", file_path, current_content.trim(), new_content.trim())`
with `file_path = line.trim().replace("CHANGE:", "").trim()`. -/
def blockTool (changeLine cur nw : String) : String × String :=
  ("write_file_delta",
    rustTrim (rustReplace (rustTrim changeLine) "CHANGE:" "") ++ ":::" ++
      rustTrim cur ++ "\n" ++ rustTrim nw)

/-- The while loop of `extract_delta_format`, fuelled by the number of lines
(structural recursion; the fuel is sufficient whenever it starts at the line
count, since every completed block consumes at least its marker lines). -/
def scanBlocksF : Nat → List String → List (String × String)
  | 0, _ => []
  | _, [] => []
  | fuel + 1, l :: rest =>
    if isMarkerLine "CHANGE:" l then
      match parseBlock rest with
      | none => []
      | some (cur, nw, r3) => blockTool l cur nw :: scanBlocksF fuel r3
    else scanBlocksF fuel rest

/-- Model of `ResponseParser::extract_delta_format` on a list of lines. -/
def scanBlocks (lines : List String) : List (String × String) :=
  scanBlocksF lines.length lines

/-- Model of `ResponseParser::extract_delta_format`. -/
def extract_delta_format (text : String) : List (String × String) :=
  scanBlocks (rustLines text)

/-- Model of `ResponseParser::extract_between_quotes`. -/
def extract_between_quotes (text : String) : Option String :=
  let t := rustTrim text
  if strStartsWith t "\"" then
    match strFind? (strDrop t 1) "\"" with
    | some e => some (strSlice t 1 (1 + e))
    | none => none
  else if strStartsWith t "'" then
    match strFind? (strDrop t 1) "'" with
    | some e => some (strSlice t 1 (1 + e))
    | none => none
  else none

/-- Model of `ResponseParser::extract_tool_param`: first the function-call syntax
`tool(...)` (first closing parenthesis, quote characters stripped, empty
parameter dropped), then — when that produced nothing — the label syntax
`tool: "..."`. -/
def extract_tool_param (line tool : String) : Option String :=
  let parenRes : Option String :=
    match strFind? line (tool ++ "(") with
    | some start =>
      match strFind? (strDrop line start) ")" with
      | some e =>
        let param := trimMatchesChar '\'' (trimMatchesChar '"'
          (strSlice line (start + tool.data.length + 1) (start + e)))
        if param.isEmpty then none else some param
      | none => none
    | none => none
  match parenRes with
  | some p => some p
  | none =>
    match strFind? line (tool ++ ":") with
    | some start => extract_between_quotes (strDrop line (start + tool.data.length + 1))
    | none => none

/-- The per-line body of `extract_simple_tools`: skip empty lines and
patch-block delimiter lines; try `read_file`, then `execute_command`;
a line yields at most one tool. -/
def simpleToolOfLine (l : String) : Option (String × String) :=
  let line := rustTrim l
  if line.isEmpty || strStartsWith line "CHANGE:" || strStartsWith line "<<<<<<<"
      || strStartsWith line "=======" || strStartsWith line ">>>>>>>" then
    none
  else
    match (if containsSub line "read_file" then extract_tool_param line "read_file" else none) with
    | some p => some ("read_file", p)
    | none =>
      match (if containsSub line "execute_command" then
              extract_tool_param line "execute_command" else none) with
      | some p => some ("execute_command", p)
      | none => none

/-- Model of `ResponseParser::extract_simple_tools`. -/
def extract_simple_tools (text : String) : List (String × String) :=
  (rustLines text).filterMap simpleToolOfLine

/-- The dispatch of `extract_tools` at the level of a line list: the delta
format takes priority, the simple scan runs only when no block was found. -/
def parse_lines (lines : List String) : List (String × String) :=
  let deltaTools := scanBlocks lines
  if deltaTools.isEmpty then lines.filterMap simpleToolOfLine else deltaTools

/-- Model of `ResponseParser::extract_tools`. -/
def extract_tools (text : String) : List (String × String) :=
  parse_lines (rustLines (cleanText text))

end ResponseParser

/-! ## `src/executor.rs` — `ToolExecutor` -/

namespace ToolExecutor

/-- A filesystem access performed by the executor; the executor's functions
return the accesses they make alongside their result string, so that "no
filesystem access" is the statement "the returned list is empty". -/
inductive FsEffect where
  | readF (path : String)
  | writeF (path : String) (content : String)
  | createDirAll (path : String)
deriving Repr, DecidableEq

/-- The ambient filesystem: the outcome of `fs::read_to_string` (the error's
display string on failure) and of `fs::write` (`none` on success, the error's
display string on failure). -/
structure FileSys where
  readRes : String → Except String String
  writeRes : String → String → Option String

/-- Model of `Path::is_absolute` on Unix: the path has a root. -/
def isAbsolutePath (p : String) : Bool :=
  strStartsWith p "/"

/-- Model of `Path::join` of the project root with a relative path (Unix separator). -/
def pathJoin (root p : String) : String :=
  root ++ "/" ++ p

/-- Model of `Path::parent`, simplified to splitting off the last `/`-separated
component; the executor only feeds the result to `create_dir_all`, whose
argument no claim inspects. -/
def parentOf (p : String) : Option String :=
  match strFind? p "/" with
  | none => if p.isEmpty then none else some ""
  | some _ =>
    some (String.intercalate "/" (p.splitOn "/").dropLast)

/-- Model of `ToolExecutor::read_file`: the path-safety check runs before any
filesystem access. -/
def read_file (fs : FileSys) (root path : String) : String × List FsEffect :=
  if isAbsolutePath path || containsSub path ".." then
    ("Error: Unsafe file path", [])
  else
    let full := pathJoin root path
    match fs.readRes full with
    | .ok content => (content, [.readF full])
    | .error e => ("Error reading file: " ++ e, [.readF full])

/-- The character-offset splice
`existing[..pos] + new_content + existing[pos + old_content.len()..]`. -/
def spliceAt (existing : String) (pos : Nat) (oldContent newContent : String) : String :=
  String.mk (existing.data.take pos ++ newContent.data ++
    existing.data.drop (pos + oldContent.data.length))

/-- Model of `ToolExecutor::apply_delta`: create the file when it cannot be read,
replace it wholly when `old_content` is empty, otherwise splice at the first
occurrence of `old_content`, or report that the content was not found. -/
def apply_delta (fs : FileSys) (path oldContent newContent : String) :
    String × List FsEffect :=
  match fs.readRes path with
  | .error _ =>
    let dirEff : List FsEffect :=
      match parentOf path with
      | some parent => [.createDirAll parent]
      | none => []
    (match fs.writeRes path newContent with
      | none => ("Created new file: " ++ path,
          .readF path :: dirEff ++ [.writeF path newContent])
      | some e => ("Error creating file: " ++ e,
          .readF path :: dirEff ++ [.writeF path newContent]))
  | .ok existing =>
    if oldContent.isEmpty then
      match fs.writeRes path newContent with
      | none => ("Replaced entire file: " ++ path,
          [.readF path, .writeF path newContent])
      | some e => ("Error writing file: " ++ e,
          [.readF path, .writeF path newContent])
    else
      match strFind? existing oldContent with
      | some pos =>
        let updated := spliceAt existing pos oldContent newContent
        (match fs.writeRes path updated with
          | none => ("Applied delta to: " ++ path, [.readF path, .writeF path updated])
          | some e => ("Error applying delta: " ++ e, [.readF path, .writeF path updated]))
      | none =>
        ("Error: Could not find specified content in " ++ path, [.readF path])

/-- Model of `ToolExecutor::write_file_delta`: split the parameter on the first `:::`,
check the target path, split the remainder on the first newline, trim both
halves, delegate to `apply_delta`. -/
def write_file_delta (fs : FileSys) (root param : String) : String × List FsEffect :=
  match splitn2 ":::" param with
  | [pathPart, contentPart] =>
    if isAbsolutePath pathPart || containsSub pathPart ".." then
      ("Error: Unsafe target file path", [])
    else
      let target := pathJoin root pathPart
      match splitn2 "\n" contentPart with
      | [oldRaw, newRaw] => apply_delta fs target (rustTrim oldRaw) (rustTrim newRaw)
      | _ => ("Error: Invalid delta content", [])
  | _ => ("Error: Invalid delta format", [])

/-- What `std::process::Command::output` reports when the child ran:
captured stdout, stderr, and `status.code()` (absent on signal
termination). -/
structure CmdOutput where
  stdout : String
  stderr : String
  exitCode : Option Int

/-- How a call of `ToolExecutor::execute_command` ends: with a returned
string, or by panicking (the `.unwrap()` on a spawn error aborts). -/
inductive ExecOutcome where
  | strRes (s : String)
  | panicRes
deriving Repr, DecidableEq

/-- Model of `ToolExecutor::execute_command`: `Command::new("sh").arg("-c").arg(cmd)
.output().unwrap()` — on a spawn failure (`spawn cmd = none`) the `.unwrap()`
panics; otherwise the three-section report is returned. -/
def execute_command (spawn : String → Option CmdOutput) (cmd : String) : ExecOutcome :=
  match spawn cmd with
  | none => .panicRes
  | some o =>
    .strRes ("stdout:\n" ++ o.stdout ++ "\nstderr:\n" ++ o.stderr ++
      "\nexit_code: " ++ toString (o.exitCode.getD (-1)))

end ToolExecutor

/-! ## `src/limiter.rs` — `TPMLimiter`

Time is modelled in integer milliseconds (`SystemTime` differences); the
blocking `thread::sleep` calls become the returned wait duration, and the
clock passed to the window check advances by the interval wait that precedes
it, as it does in the source. -/

namespace TPMLimiter

structure State where
  max_tpm : Nat
  min_interval : Int
  token_usage : List (Int × Nat)
  last_request : Option Int
deriving Repr, DecidableEq

/-- Model of `TPMLimiter::new(max_tpm, min_interval_secs)`. -/
def new (maxTpm : Nat) (minIntervalSecs : Nat) : State :=
  { max_tpm := maxTpm, min_interval := (minIntervalSecs : Int) * 1000,
    token_usage := [], last_request := none }

/-- The front-pruning loop shared by `add_token_usage`: pop entries strictly
older than the cutoff, stopping at the first recent one. -/
def dropOld (cutoff : Int) : List (Int × Nat) → List (Int × Nat)
  | [] => []
  | (t, k) :: rest => if t < cutoff then dropOld cutoff rest else (t, k) :: rest

/-- Model of `TPMLimiter::add_token_usage`: push `(now, tokens)`, then prune entries
older than one minute.  (This variant does not touch `last_request`.) -/
def add_token_usage (l : State) (now : Int) (tokens : Nat) : State :=
  { l with token_usage := dropOld (now - 60000) (l.token_usage ++ [(now, tokens)]) }

/-- Model of `TPMLimiter::get_current_tpm`: the sum of window entries no older than one
minute; read-only. -/
def get_current_tpm (l : State) (now : Int) : Nat :=
  ((l.token_usage.filter (fun e => now - 60000 ≤ e.1)).map (fun e => e.2)).sum

/-- Model of `TPMLimiter::wait_if_needed`: first the minimum-interval sleep (when a
previous request exists and its elapsed time is non-negative and below the
interval), then — on the clock advanced by that sleep — the window check: if
the current window sum reaches `max_tpm` and the oldest entry is younger than
one minute, sleep until it ages out plus a 100 ms margin.  Returns the total
sleep and the new state (`last_request` is set to the entry time). -/
def wait_if_needed (l : State) (now : Int) : Int × State :=
  let d1 : Int :=
    match l.last_request with
    | some lastReq =>
      if 0 ≤ now - lastReq ∧ now - lastReq < l.min_interval then
        l.min_interval - (now - lastReq)
      else 0
    | none => 0
  let clock := now + d1
  let d2 : Int :=
    if l.max_tpm ≤ get_current_tpm l clock then
      match l.token_usage with
      | [] => 0
      | (oldest, _) :: _ =>
        if 0 ≤ clock - oldest ∧ clock - oldest < 60000 then
          60000 - (clock - oldest) + 100
        else 0
    else 0
  (d1 + d2, { l with last_request := some now })

end TPMLimiter

/-! ## The shape of a well-formed patch block, and scanning lemmas -/

namespace ResponseParser

/-- A syntactically complete patch block, line by line: the `CHANGE:` line,
ignored lines before the `<<<<<<< CURRENT` marker, the current-content lines,
the `=======` separator, the new-content lines, the `>>>>>>> NEW`
terminator. -/
structure PatchBlock where
  changeLine : String
  preLines : List String
  curMarker : String
  curLines : List String
  sepLine : String
  newLines : List String
  endLine : String

/-- Well-formedness: each marker line carries its marker (after trim), and no
content or ignored line carries the marker that would end its section
early. -/
def PatchBlock.wf (b : PatchBlock) : Prop :=
  isMarkerLine "CHANGE:" b.changeLine = true ∧
  (∀ l ∈ b.preLines, isMarkerLine "<<<<<<< CURRENT" l = false) ∧
  isMarkerLine "<<<<<<< CURRENT" b.curMarker = true ∧
  (∀ l ∈ b.curLines, isMarkerLine "=======" l = false) ∧
  isMarkerLine "=======" b.sepLine = true ∧
  (∀ l ∈ b.newLines, isMarkerLine ">>>>>>> NEW" l = false) ∧
  isMarkerLine ">>>>>>> NEW" b.endLine = true

instance (b : PatchBlock) : Decidable b.wf := by
  unfold PatchBlock.wf; infer_instance

/-- How the scanner accumulates a section's lines: each line followed by a
newline. -/
def joinLines (ls : List String) : String :=
  ls.foldr (fun l acc => l ++ "\n" ++ acc) ""

/-- The block's lines in source order. -/
def PatchBlock.lines (b : PatchBlock) : List String :=
  b.changeLine ::
    (b.preLines ++ b.curMarker ::
      (b.curLines ++ b.sepLine :: (b.newLines ++ [b.endLine])))

/-- The ToolCall the scanner emits for the block. -/
def PatchBlock.tool (b : PatchBlock) : String × String :=
  blockTool b.changeLine (joinLines b.curLines) (joinLines b.newLines)

/-- Lines none of which opens a patch block. -/
def NoChange (ls : List String) : Prop :=
  ∀ l ∈ ls, isMarkerLine "CHANGE:" l = false

instance (ls : List String) : Decidable (NoChange ls) := by
  unfold NoChange; infer_instance

/-- The lines of a sequence of blocks, each followed by its trailing ignored
lines. -/
def blocksText (bs : List (PatchBlock × List String)) : List String :=
  (bs.map (fun p => p.1.lines ++ p.2)).flatten

/-- A whole input: leading ignored lines, then blocks interleaved with
ignored lines. -/
def assembleLines (j0 : List String) (bs : List (PatchBlock × List String)) : List String :=
  j0 ++ blocksText bs

end ResponseParser

/-- Whether `needle` occurs in `hay` at character offset `q`. -/
def occursAt (hay needle : String) (q : Nat) : Bool :=
  needle.data.isPrefixOf (hay.data.drop q)

namespace ResponseParser

theorem dropToMarker_length {m : String} {ls r : List String}
    (h : dropToMarker m ls = some r) : r.length < ls.length := by
  induction ls with
  | nil => simp [dropToMarker] at h
  | cons l t ih =>
    by_cases hm : isMarkerLine m l = true
    · simp [dropToMarker, hm] at h
      simp [← h]
    · simp [dropToMarker, hm] at h
      exact Nat.lt_succ_of_lt (ih h)

theorem takeToMarker_length {m : String} : ∀ {ls : List String} {c : String}
    {r : List String}, takeToMarker m ls = some (c, r) → r.length < ls.length := by
  intro ls
  induction ls with
  | nil => intro c r h; simp [takeToMarker] at h
  | cons l t ih =>
    intro c r h
    by_cases hm : isMarkerLine m l = true
    · simp only [takeToMarker, hm, if_true, Option.some.injEq, Prod.mk.injEq] at h
      simp [← h.2]
    · simp only [takeToMarker, hm, if_false, Bool.false_eq_true] at h
      rw [Option.map_eq_some'] at h
      obtain ⟨⟨c0, r0⟩, hrec, hmap⟩ := h
      have hr : r0 = r := congrArg Prod.snd hmap
      subst hr
      exact Nat.lt_succ_of_lt (ih hrec)

/-- The three stages a successful block scan goes through. -/
theorem parseBlock_elim {rest : List String} {cur nw : String} {r3 : List String}
    (h : parseBlock rest = some (cur, nw, r3)) :
    ∃ r1 r2, dropToMarker "<<<<<<< CURRENT" rest = some r1 ∧
      takeToMarker "=======" r1 = some (cur, r2) ∧
      takeToMarker ">>>>>>> NEW" r2 = some (nw, r3) := by
  unfold parseBlock at h
  rw [Option.bind_eq_some] at h
  obtain ⟨r1, h1, h⟩ := h
  rw [Option.bind_eq_some] at h
  obtain ⟨⟨c2, r2⟩, h2, h⟩ := h
  rw [Option.bind_eq_some] at h
  obtain ⟨⟨c3, r3x⟩, h3, h⟩ := h
  simp only [Option.some.injEq, Prod.mk.injEq] at h
  obtain ⟨hc, hn, hr⟩ := h
  subst hc; subst hn; subst hr
  exact ⟨r1, r2, h1, h2, h3⟩

theorem parseBlock_length {rest : List String} {cur nw : String} {r3 : List String}
    (h : parseBlock rest = some (cur, nw, r3)) : r3.length < rest.length := by
  obtain ⟨r1, r2, h1, h2, h3⟩ := parseBlock_elim h
  exact lt_trans (lt_trans (takeToMarker_length h3) (takeToMarker_length h2))
    (dropToMarker_length h1)

theorem scanBlocksF_congr : ∀ (f g : Nat) (ls : List String),
    ls.length ≤ f → ls.length ≤ g → scanBlocksF f ls = scanBlocksF g ls := by
  intro f
  induction f with
  | zero =>
    intro g ls hf _
    have : ls = [] := List.length_eq_zero.mp (Nat.le_zero.mp hf)
    subst this
    cases g <;> rfl
  | succ f ih =>
    intro g ls hf hg
    cases ls with
    | nil => cases g <;> rfl
    | cons l rest =>
      cases g with
      | zero => exact absurd hg (by simp)
      | succ g =>
        simp only [scanBlocksF]
        by_cases hm : isMarkerLine "CHANGE:" l = true
        · simp only [hm, if_true]
          cases hp : parseBlock rest with
          | none => rfl
          | some trip =>
            obtain ⟨cur, nw, r3⟩ := trip
            have hlen := parseBlock_length hp
            simp only []
            have hrf : r3.length ≤ f := by
              simp at hf; omega
            have hrg : r3.length ≤ g := by
              simp at hg; omega
            rw [ih g r3 hrf hrg]
        · simp only [hm, if_false]
          exact ih g rest (by simp at hf; omega) (by simp at hg; omega)

theorem scanBlocksF_eq_scanBlocks {f : Nat} {ls : List String} (h : ls.length ≤ f) :
    scanBlocksF f ls = scanBlocks ls :=
  scanBlocksF_congr f ls.length ls h le_rfl

theorem scanBlocks_nil : scanBlocks [] = [] := rfl

theorem scanBlocks_cons_skip {l : String} {rest : List String}
    (h : isMarkerLine "CHANGE:" l = false) :
    scanBlocks (l :: rest) = scanBlocks rest := by
  show scanBlocksF (rest.length + 1) (l :: rest) = _
  simp only [scanBlocksF, h, Bool.false_eq_true, if_false]
  rfl

theorem scanBlocks_cons_change {l : String} {rest : List String} {cur nw : String}
    {r3 : List String} (h : isMarkerLine "CHANGE:" l = true)
    (hp : parseBlock rest = some (cur, nw, r3)) :
    scanBlocks (l :: rest) = blockTool l cur nw :: scanBlocks r3 := by
  show scanBlocksF (rest.length + 1) (l :: rest) = _
  simp only [scanBlocksF, h, if_true, hp]
  rw [scanBlocksF_eq_scanBlocks (Nat.le_of_lt (parseBlock_length hp))]

theorem scanBlocks_cons_change_none {l : String} {rest : List String}
    (h : isMarkerLine "CHANGE:" l = true) (hp : parseBlock rest = none) :
    scanBlocks (l :: rest) = [] := by
  show scanBlocksF (rest.length + 1) (l :: rest) = _
  simp only [scanBlocksF, h, if_true, hp]

theorem dropToMarker_skip {m : String} {junk ls : List String}
    (h : ∀ l ∈ junk, isMarkerLine m l = false) :
    dropToMarker m (junk ++ ls) = dropToMarker m ls := by
  induction junk with
  | nil => rfl
  | cons l t ih =>
    have hl := h l (by simp)
    simp only [List.cons_append, dropToMarker, hl, Bool.false_eq_true, if_false]
    exact ih (fun x hx => h x (by simp [hx]))

theorem dropToMarker_cons_marker {m l : String} {t : List String}
    (h : isMarkerLine m l = true) : dropToMarker m (l :: t) = some t := by
  simp [dropToMarker, h]

theorem takeToMarker_collect {m : String} {content : List String} {mk : String}
    {rest : List String} (hc : ∀ l ∈ content, isMarkerLine m l = false)
    (hm : isMarkerLine m mk = true) :
    takeToMarker m (content ++ mk :: rest) = some (joinLines content, rest) := by
  induction content with
  | nil => simp [takeToMarker, hm, joinLines]
  | cons l t ih =>
    have hl := hc l (by simp)
    simp only [List.cons_append, takeToMarker, hl, Bool.false_eq_true, if_false,
      List.append_eq]
    rw [ih (fun x hx => hc x (by simp [hx]))]
    rfl

theorem takeToMarker_eq_none {m : String} {ls : List String}
    (h : ∀ l ∈ ls, isMarkerLine m l = false) : takeToMarker m ls = none := by
  induction ls with
  | nil => rfl
  | cons l t ih =>
    have hl := h l (by simp)
    simp only [takeToMarker, hl, Bool.false_eq_true, if_false]
    rw [ih (fun x hx => h x (by simp [hx]))]
    rfl

theorem dropToMarker_subset {m : String} : ∀ {ls r : List String},
    dropToMarker m ls = some r → ∀ x ∈ r, x ∈ ls := by
  intro ls
  induction ls with
  | nil => intro r h; simp [dropToMarker] at h
  | cons l t ih =>
    intro r h x hx
    by_cases hm : isMarkerLine m l = true
    · simp only [dropToMarker, hm, if_true, Option.some.injEq] at h
      subst h
      exact List.mem_cons_of_mem _ hx
    · simp only [dropToMarker, hm, Bool.false_eq_true, if_false] at h
      exact List.mem_cons_of_mem _ (ih h x hx)

theorem takeToMarker_subset {m : String} : ∀ {ls : List String} {c : String}
    {r : List String}, takeToMarker m ls = some (c, r) → ∀ x ∈ r, x ∈ ls := by
  intro ls
  induction ls with
  | nil => intro c r h; simp [takeToMarker] at h
  | cons l t ih =>
    intro c r h x hx
    by_cases hm : isMarkerLine m l = true
    · simp only [takeToMarker, hm, if_true, Option.some.injEq, Prod.mk.injEq] at h
      exact List.mem_cons_of_mem _ (h.2 ▸ hx)
    · simp only [takeToMarker, hm, Bool.false_eq_true, if_false] at h
      rw [Option.map_eq_some'] at h
      obtain ⟨⟨c0, r0⟩, hrec, hmap⟩ := h
      have hr : r0 = r := congrArg Prod.snd hmap
      subst hr
      exact List.mem_cons_of_mem _ (ih hrec x hx)

/-- A complete block at the head of the input is scanned into exactly its
three sections, leaving the lines after its terminator. -/
theorem parseBlock_collect (b : PatchBlock) (hb : b.wf) (ls : List String) :
    parseBlock (b.preLines ++ b.curMarker ::
        (b.curLines ++ b.sepLine :: (b.newLines ++ b.endLine :: ls))) =
      some (joinLines b.curLines, joinLines b.newLines, ls) := by
  obtain ⟨-, hpre, hcurM, hcur, hsep, hnew, hend⟩ := hb
  unfold parseBlock
  simp only [dropToMarker_skip hpre, dropToMarker_cons_marker hcurM,
    Option.some_bind', takeToMarker_collect hcur hsep,
    takeToMarker_collect hnew hend]

theorem dropToMarker_eq_none {m : String} {ls : List String}
    (h : ∀ l ∈ ls, isMarkerLine m l = false) : dropToMarker m ls = none := by
  induction ls with
  | nil => rfl
  | cons l t ih =>
    have hl := h l (by simp)
    simp only [dropToMarker, hl, Bool.false_eq_true, if_false]
    exact ih (fun x hx => h x (by simp [hx]))

/-- If no line of `tail` carries the `>>>>>>> NEW` terminator, the block scan
started on `tail` fails (the `break` case): no section triple is produced. -/
theorem parseBlock_none_of_noEnd {tail : List String}
    (h : ∀ l ∈ tail, isMarkerLine ">>>>>>> NEW" l = false) :
    parseBlock tail = none := by
  unfold parseBlock
  cases h1 : dropToMarker "<<<<<<< CURRENT" tail with
  | none => rfl
  | some r1 =>
    have hr1 : ∀ l ∈ r1, isMarkerLine ">>>>>>> NEW" l = false :=
      fun l hl => h l (dropToMarker_subset h1 l hl)
    cases h2 : takeToMarker "=======" r1 with
    | none => simp only [Option.some_bind', h2, Option.none_bind']
    | some p =>
      obtain ⟨c2, r2⟩ := p
      have hr2 : ∀ l ∈ r2, isMarkerLine ">>>>>>> NEW" l = false :=
        fun l hl => hr1 l (takeToMarker_subset h2 l hl)
      simp only [Option.some_bind', h2, takeToMarker_eq_none hr2, Option.none_bind']

/-- If any one of the three markers never appears (after trim) on a line of
`tail`, the block scan started on `tail` fails without producing a triple:
the sections cannot all be closed before the end of input. -/
theorem parseBlock_none_of_missing_marker {tail : List String}
    (h : (∀ l ∈ tail, isMarkerLine "<<<<<<< CURRENT" l = false) ∨
      (∀ l ∈ tail, isMarkerLine "=======" l = false) ∨
      (∀ l ∈ tail, isMarkerLine ">>>>>>> NEW" l = false)) :
    parseBlock tail = none := by
  rcases h with h1 | h2 | h3
  · unfold parseBlock
    rw [dropToMarker_eq_none h1]
    rfl
  · unfold parseBlock
    cases hd : dropToMarker "<<<<<<< CURRENT" tail with
    | none => rfl
    | some r1 =>
      have hr1 : ∀ l ∈ r1, isMarkerLine "=======" l = false :=
        fun l hl => h2 l (dropToMarker_subset hd l hl)
      simp only [Option.some_bind', takeToMarker_eq_none hr1, Option.none_bind']
  · exact parseBlock_none_of_noEnd h3

/-- A well-formed block followed by anything scans to its tool followed by
the scan of the remainder. -/
theorem scanBlocks_block_cons (b : PatchBlock) (hb : b.wf) (ls : List String) :
    scanBlocks (b.lines ++ ls) = b.tool :: scanBlocks ls := by
  have hlines : b.lines ++ ls = b.changeLine :: (b.preLines ++ b.curMarker ::
      (b.curLines ++ b.sepLine :: (b.newLines ++ b.endLine :: ls))) := by
    simp [PatchBlock.lines]
  rw [hlines, scanBlocks_cons_change hb.1 (parseBlock_collect b hb ls)]
  rfl

/-- Lines that open no block are skipped without effect on the scan. -/
theorem scanBlocks_skip {junk : List String} (ls : List String)
    (h : NoChange junk) : scanBlocks (junk ++ ls) = scanBlocks ls := by
  induction junk with
  | nil => rfl
  | cons l t ih =>
    rw [List.cons_append, scanBlocks_cons_skip (h l (by simp))]
    exact ih (fun x hx => h x (by simp [hx]))

/-- The scan of a sequence of well-formed blocks (each followed by ignored
lines) before an arbitrary remainder: one tool per block, in order, then the
scan of the remainder. -/
theorem scanBlocks_assemble : ∀ (bs : List (PatchBlock × List String))
    (ls : List String), (∀ p ∈ bs, p.1.wf ∧ NoChange p.2) →
    scanBlocks (blocksText bs ++ ls) = bs.map (fun p => p.1.tool) ++ scanBlocks ls := by
  intro bs
  induction bs with
  | nil => intro ls _; rfl
  | cons p rest ih =>
    intro ls h
    obtain ⟨b, junk⟩ := p
    have hb := (h (b, junk) (by simp)).1
    have hj := (h (b, junk) (by simp)).2
    have hassoc : blocksText ((b, junk) :: rest) ++ ls =
        b.lines ++ (junk ++ (blocksText rest ++ ls)) := by
      simp [blocksText]
    rw [hassoc, scanBlocks_block_cons b hb, scanBlocks_skip _ hj,
      ih ls (fun q hq => h q (by simp [hq]))]
    rfl

end ResponseParser

/-! ## First-occurrence characterisation of the substring search -/

theorem listFind?_spec {needle : List Char} : ∀ {hay : List Char} {p : Nat},
    listFind? hay needle = some p →
    needle.isPrefixOf (hay.drop p) = true ∧
    ∀ q, q < p → needle.isPrefixOf (hay.drop q) = false := by
  intro hay
  induction hay with
  | nil =>
    intro p h
    by_cases hne : needle.isEmpty = true
    · simp only [listFind?, hne, if_true, Option.some.injEq] at h
      subst h
      refine ⟨?_, fun q hq => absurd hq (by omega)⟩
      rw [List.isEmpty_iff] at hne
      subst hne
      rfl
    · simp [listFind?, hne] at h
  | cons c t ih =>
    intro p h
    by_cases hpre : needle.isPrefixOf (c :: t) = true
    · simp only [listFind?, hpre, if_true, Option.some.injEq] at h
      subst h
      exact ⟨hpre, fun q hq => absurd hq (by omega)⟩
    · simp only [listFind?, hpre, Bool.false_eq_true, if_false] at h
      rw [Option.map_eq_some'] at h
      obtain ⟨p0, hrec, hp⟩ := h
      subst hp
      obtain ⟨h1, h2⟩ := ih hrec
      refine ⟨h1, fun q hq => ?_⟩
      cases q with
      | zero =>
        rw [Bool.not_eq_true] at hpre
        rw [List.drop_zero]
        exact hpre
      | succ q0 => exact h2 q0 (by omega)

theorem strFind?_spec {hay needle : String} {p : Nat}
    (h : strFind? hay needle = some p) :
    occursAt hay needle p = true ∧ ∀ q, q < p → occursAt hay needle q = false :=
  listFind?_spec h

/-! ## Claims about `ToolExecutor` (executor.rs) -/

/-- C1: a call of `ToolExecutor::read_file`, or of
`ToolExecutor::write_file_delta` whose parsed relative path is absolute or
contains a parent-directory traversal component `..`, returns the descriptive
error string and performs no filesystem access at all (no read, no write, no
directory creation). -/
theorem c1_unsafe_path_rejected_without_fs_access
    (fs : ToolExecutor.FileSys) (root rel param contentPart : String)
    (hrel : (ToolExecutor.isAbsolutePath rel || containsSub rel "..") = true)
    (hsplit : splitn2 ":::" param = [rel, contentPart]) :
    ToolExecutor.read_file fs root rel = ("Error: Unsafe file path", []) ∧
    ToolExecutor.write_file_delta fs root param = ("Error: Unsafe target file path", []) := by
  constructor
  · unfold ToolExecutor.read_file
    simp [hrel]
  · unfold ToolExecutor.write_file_delta
    rw [hsplit]
    simp [hrel]

theorem c1_unsafe_path_rejected_without_fs_access_witness :
    ToolExecutor.read_file ⟨fun _ => Except.error "io", fun _ _ => none⟩ "proj"
        "../../etc/passwd" = ("Error: Unsafe file path", []) ∧
    ToolExecutor.write_file_delta ⟨fun _ => Except.error "io", fun _ _ => none⟩ "proj"
        "../../etc/passwd:::a\nb" = ("Error: Unsafe target file path", []) ∧
    ToolExecutor.read_file ⟨fun _ => Except.error "io", fun _ _ => none⟩ "proj"
        "/etc/passwd" = ("Error: Unsafe file path", []) ∧
    ToolExecutor.write_file_delta ⟨fun _ => Except.error "io", fun _ _ => none⟩ "proj"
        "/etc/passwd:::a\nb" = ("Error: Unsafe target file path", []) := by
  have h1 := c1_unsafe_path_rejected_without_fs_access
    ⟨fun _ => Except.error "io", fun _ _ => none⟩ "proj" "../../etc/passwd"
    "../../etc/passwd:::a\nb" "a\nb" (by decide) (by decide)
  have h2 := c1_unsafe_path_rejected_without_fs_access
    ⟨fun _ => Except.error "io", fun _ _ => none⟩ "proj" "/etc/passwd"
    "/etc/passwd:::a\nb" "a\nb" (by decide) (by decide)
  exact ⟨h1.1, h1.2, h2.1, h2.2⟩

/-- C10 (implicit): the path-safety check rejects every relative path that
contains the two-character substring `..` anywhere — including inside an
ordinary file name such as `notes..txt` that denotes no parent-directory
traversal — with the same error strings and no filesystem access, for both
`read_file` and `write_file_delta`. -/
theorem c10_dotdot_substring_always_rejected
    (fs : ToolExecutor.FileSys) (root rel param contentPart : String)
    (hdots : containsSub rel ".." = true)
    (hsplit : splitn2 ":::" param = [rel, contentPart]) :
    ToolExecutor.read_file fs root rel = ("Error: Unsafe file path", []) ∧
    ToolExecutor.write_file_delta fs root param = ("Error: Unsafe target file path", []) := by
  constructor
  · unfold ToolExecutor.read_file
    simp [hdots]
  · unfold ToolExecutor.write_file_delta
    rw [hsplit]
    simp [hdots]

theorem c10_dotdot_substring_always_rejected_witness :
    ToolExecutor.read_file ⟨fun _ => Except.error "io", fun _ _ => none⟩ "proj"
        "notes..txt" = ("Error: Unsafe file path", []) ∧
    ToolExecutor.write_file_delta ⟨fun _ => Except.error "io", fun _ _ => none⟩ "proj"
        "notes..txt:::a\nb" = ("Error: Unsafe target file path", []) := by
  exact c10_dotdot_substring_always_rejected
    ⟨fun _ => Except.error "io", fun _ _ => none⟩ "proj" "notes..txt"
    "notes..txt:::a\nb" "a\nb" (by decide) (by decide)

/-- C2: on an existing file whose content contains the non-empty
`old_content`, `apply_delta` writes back
`existing[..p] ++ new_content ++ existing[p + len(old_content)..]` where `p`
is the lowest offset of an occurrence, and returns the `Patched` outcome;
no occurrence before `p` exists, so only the first occurrence is replaced. -/
theorem c2_apply_delta_splices_first_occurrence
    (fs : ToolExecutor.FileSys) (path oldC newC existing : String) (pos : Nat)
    (hread : fs.readRes path = Except.ok existing)
    (hne : oldC.isEmpty = false)
    (hfind : strFind? existing oldC = some pos)
    (hwrite : fs.writeRes path (ToolExecutor.spliceAt existing pos oldC newC) = none) :
    ToolExecutor.apply_delta fs path oldC newC =
      ("Applied delta to: " ++ path,
        [ToolExecutor.FsEffect.readF path,
          ToolExecutor.FsEffect.writeF path (ToolExecutor.spliceAt existing pos oldC newC)]) ∧
    occursAt existing oldC pos = true ∧
    ∀ q, q < pos → occursAt existing oldC q = false := by
  refine ⟨?_, (strFind?_spec hfind).1, (strFind?_spec hfind).2⟩
  unfold ToolExecutor.apply_delta
  rw [hread]
  simp only [hne, Bool.false_eq_true, if_false, hfind, hwrite]

theorem c2_apply_delta_splices_first_occurrence_witness :
    ToolExecutor.apply_delta ⟨fun _ => Except.ok "abcabc", fun _ _ => none⟩ "p" "b" "X" =
      ("Applied delta to: p",
        [ToolExecutor.FsEffect.readF "p",
          ToolExecutor.FsEffect.writeF "p" (ToolExecutor.spliceAt "abcabc" 1 "b" "X")]) ∧
    occursAt "abcabc" "b" 1 = true ∧
    ∀ q, q < 1 → occursAt "abcabc" "b" q = false := by
  exact c2_apply_delta_splices_first_occurrence
    ⟨fun _ => Except.ok "abcabc", fun _ _ => none⟩ "p" "b" "X" "abcabc" 1
    rfl (by decide) (by decide) rfl

/-- C6: the claim says a spawn failure of `execute_command` is reported as an
error string, never a crash; the code instead calls `.unwrap()` on
`Command::output()`, so a failed spawn panics the process.  This theorem
evaluates the code's behaviour at the failing input. -/
theorem c6_spawn_failure_panics :
    ToolExecutor.execute_command (fun _ => none) "cargo build" =
      ToolExecutor.ExecOutcome.panicRes := rfl

/-! ## Claims about `ResponseParser` (parser.rs) -/

/-- C3: on an input made of well-formed patch blocks separated by lines that
open no block, the parse returns exactly one `write_file_delta` ToolCall per
block, in source order, and nothing else — simple-call scanning is skipped. -/
theorem c3_patch_blocks_exclusive_in_order
    (j0 : List String) (bs : List (ResponseParser.PatchBlock × List String))
    (hj : ResponseParser.NoChange j0)
    (hbs : ∀ p ∈ bs, p.1.wf ∧ ResponseParser.NoChange p.2)
    (hne : bs ≠ []) :
    ResponseParser.parse_lines (ResponseParser.assembleLines j0 bs) =
      bs.map (fun p => p.1.tool) ∧
    ∀ t ∈ ResponseParser.parse_lines (ResponseParser.assembleLines j0 bs),
      t.1 = "write_file_delta" := by
  have hscan : ResponseParser.scanBlocks (ResponseParser.assembleLines j0 bs) =
      bs.map (fun p => p.1.tool) := by
    unfold ResponseParser.assembleLines
    rw [ResponseParser.scanBlocks_skip (ResponseParser.blocksText bs) hj,
      ← List.append_nil (ResponseParser.blocksText bs),
      ResponseParser.scanBlocks_assemble bs [] hbs]
    simp [ResponseParser.scanBlocks_nil]
  have hfalse : (bs.map (fun p => p.1.tool)).isEmpty = false := by
    cases bs with
    | nil => exact absurd rfl hne
    | cons b t => rfl
  have heq : ResponseParser.parse_lines (ResponseParser.assembleLines j0 bs) =
      bs.map (fun p => p.1.tool) := by
    unfold ResponseParser.parse_lines
    rw [hscan]
    simp [hfalse]
  refine ⟨heq, fun t ht => ?_⟩
  rw [heq] at ht
  obtain ⟨p, hp, rfl⟩ := List.mem_map.mp ht
  rfl

theorem c3_patch_blocks_exclusive_in_order_witness :
    ResponseParser.parse_lines (ResponseParser.assembleLines ["hello"]
      [(⟨"CHANGE: src/lib.rs", [], "<<<<<<< CURRENT", ["pub fn old()"],
          "=======", ["pub fn new()"], ">>>>>>> NEW"⟩, ["after"])]) =
      List.map (fun p => p.1.tool)
        [((⟨"CHANGE: src/lib.rs", [], "<<<<<<< CURRENT", ["pub fn old()"],
            "=======", ["pub fn new()"], ">>>>>>> NEW"⟩ :
          ResponseParser.PatchBlock), (["after"] : List String))] ∧
    ∀ t ∈ ResponseParser.parse_lines (ResponseParser.assembleLines ["hello"]
      [(⟨"CHANGE: src/lib.rs", [], "<<<<<<< CURRENT", ["pub fn old()"],
          "=======", ["pub fn new()"], ">>>>>>> NEW"⟩, ["after"])]),
      t.1 = "write_file_delta" := by
  exact c3_patch_blocks_exclusive_in_order ["hello"]
    [(⟨"CHANGE: src/lib.rs", [], "<<<<<<< CURRENT", ["pub fn old()"],
        "=======", ["pub fn new()"], ">>>>>>> NEW"⟩, ["after"])]
    (by decide) (by decide) (by exact List.cons_ne_nil _ _)

/-- C4: after any sequence of well-formed blocks, a `CHANGE:` line whose
block is missing any of the three markers (`<<<<<<< CURRENT`, `=======`,
`>>>>>>> NEW`) before the end of input emits no ToolCall: the scan returns
exactly the earlier blocks' tools and nothing partial or guessed for the
malformed block. -/
theorem c4_malformed_block_emits_nothing
    (j0 : List String) (bs : List (ResponseParser.PatchBlock × List String))
    (c : String) (tail : List String)
    (hj : ResponseParser.NoChange j0)
    (hbs : ∀ p ∈ bs, p.1.wf ∧ ResponseParser.NoChange p.2)
    (hc : ResponseParser.isMarkerLine "CHANGE:" c = true)
    (htail : (∀ l ∈ tail, ResponseParser.isMarkerLine "<<<<<<< CURRENT" l = false) ∨
      (∀ l ∈ tail, ResponseParser.isMarkerLine "=======" l = false) ∨
      (∀ l ∈ tail, ResponseParser.isMarkerLine ">>>>>>> NEW" l = false)) :
    ResponseParser.scanBlocks (ResponseParser.assembleLines j0 bs ++ c :: tail) =
      bs.map (fun p => p.1.tool) := by
  unfold ResponseParser.assembleLines
  rw [List.append_assoc,
    ResponseParser.scanBlocks_skip (ResponseParser.blocksText bs ++ c :: tail) hj,
    ResponseParser.scanBlocks_assemble bs (c :: tail) hbs,
    ResponseParser.scanBlocks_cons_change_none hc
      (ResponseParser.parseBlock_none_of_missing_marker htail),
    List.append_nil]

theorem c4_malformed_block_emits_nothing_witness :
    ResponseParser.scanBlocks (ResponseParser.assembleLines [] [] ++
      "CHANGE: a.rs" :: ["<<<<<<< CURRENT", "old text", "======="]) =
      List.map (fun p => p.1.tool)
        ([] : List (ResponseParser.PatchBlock × List String)) := by
  exact c4_malformed_block_emits_nothing [] [] "CHANGE: a.rs"
    ["<<<<<<< CURRENT", "old text", "======="]
    (by decide) (by decide) (by decide) (Or.inr (Or.inr (by decide)))

/-- C5 counterexample: the claim says `parse` deduplicates `(name, parameter)`
pairs; on a response with two identical `read_file("a.txt")` lines the parser
in fact returns two identical ToolCalls — the result is not duplicate-free. -/
theorem c5_duplicates_not_collapsed :
    ResponseParser.extract_tools "read_file(\"a.txt\")\nread_file(\"a.txt\")" =
      [("read_file", "a.txt"), ("read_file", "a.txt")] ∧
    ¬ (ResponseParser.extract_tools "read_file(\"a.txt\")\nread_file(\"a.txt\")").Nodup := by
  constructor
  · decide
  · decide

/-- C5 amended: the parse does not collapse duplicates: every matching line
yields its own ToolCall in source order, so a response of two syntactically
identical `read_file` lines yields exactly two identical `read_file`
ToolCalls. -/
theorem c5_amended_duplicates_preserved
    (l : String) (p : String)
    (h : ResponseParser.simpleToolOfLine l = some ("read_file", p)) :
    ResponseParser.parse_lines [l, l] = [("read_file", p), ("read_file", p)] := by
  have hnc : ResponseParser.isMarkerLine "CHANGE:" l = false := by
    by_contra hx
    rw [Bool.not_eq_false] at hx
    unfold ResponseParser.simpleToolOfLine at h
    unfold ResponseParser.isMarkerLine at hx
    simp [hx] at h
  have hscan : ResponseParser.scanBlocks [l, l] = [] := by
    rw [ResponseParser.scanBlocks_cons_skip hnc,
      ResponseParser.scanBlocks_cons_skip hnc]
    rfl
  unfold ResponseParser.parse_lines
  rw [hscan]
  simp [List.filterMap_cons, h]

theorem c5_amended_duplicates_preserved_witness :
    ResponseParser.parse_lines ["read_file(\"a.txt\")", "read_file(\"a.txt\")"] =
      [("read_file", "a.txt"), ("read_file", "a.txt")] := by
  exact c5_amended_duplicates_preserved "read_file(\"a.txt\")" "a.txt" (by decide)

/-- C8 counterexample: the claim says leading indentation of the first content
line survives into the serialized DeltaSpec; the parser's `str::trim` in fact
strips it. -/
theorem c8_indentation_not_preserved :
    ResponseParser.extract_tools
        "CHANGE: f.rs\n<<<<<<< CURRENT\n    old line\n=======\n    new line\n>>>>>>> NEW\n" =
      [("write_file_delta", "f.rs:::old line\nnew line")] ∧
    ResponseParser.extract_tools
        "CHANGE: f.rs\n<<<<<<< CURRENT\n    old line\n=======\n    new line\n>>>>>>> NEW\n" ≠
      [("write_file_delta", "f.rs:::    old line\n    new line")] := by
  constructor
  · decide
  · decide

/-- C8 amended: for every well-formed patch block the serialized old/new
contents are the block's content lines joined with newlines and then trimmed
of all leading and trailing whitespace (Rust `str::trim`): a single blank
line introduced by the delimiters disappears, but so do leading indentation
on the first content line and trailing whitespace on the last; interior
lines are carried verbatim inside the join. -/
theorem c8_contents_fully_trimmed (b : ResponseParser.PatchBlock) (hb : b.wf) :
    ResponseParser.scanBlocks b.lines =
      [("write_file_delta",
        rustTrim (rustReplace (rustTrim b.changeLine) "CHANGE:" "") ++ ":::" ++
          rustTrim (ResponseParser.joinLines b.curLines) ++ "\n" ++
          rustTrim (ResponseParser.joinLines b.newLines))] := by
  have h := ResponseParser.scanBlocks_block_cons b hb []
  rw [List.append_nil] at h
  rw [h]
  rfl

theorem c8_contents_fully_trimmed_witness :
    ResponseParser.scanBlocks (ResponseParser.PatchBlock.lines
      ⟨"CHANGE: f.rs", [], "<<<<<<< CURRENT", ["    old line"],
        "=======", ["    new line"], ">>>>>>> NEW"⟩) =
      [("write_file_delta",
        rustTrim (rustReplace (rustTrim "CHANGE: f.rs") "CHANGE:" "") ++ ":::" ++
          rustTrim (ResponseParser.joinLines ["    old line"]) ++ "\n" ++
          rustTrim (ResponseParser.joinLines ["    new line"]))] := by
  exact c8_contents_fully_trimmed
    ⟨"CHANGE: f.rs", [], "<<<<<<< CURRENT", ["    old line"],
      "=======", ["    new line"], ">>>>>>> NEW"⟩ (by decide)

/-- C9 counterexample: the claim says the parser additionally recognizes the
bracket-wrapped `code{"command":"` form; the code recognizes no such form:
this input yields no ToolCall at all. -/
theorem c9_bracket_form_not_recognized :
    ResponseParser.extract_tools "execute_command code\x7b\"command\":\"ls -la\"\x7d" = [] ∧
    ResponseParser.extract_tools "execute_command code\x7b\"command\":\"ls -la\"\x7d" ≠
      [("execute_command", "ls -la")] := by
  constructor
  · decide
  · decide

/-- C9 amended: the `execute_command` extraction recognizes exactly the two
standard forms; it produces a parameter only when the line contains
`execute_command(` or `execute_command:` — never from a bracket-wrapped
`code{"command":"` marker alone. -/
theorem c9_only_standard_forms_recognized
    (line : String) (p : String)
    (h : ResponseParser.extract_tool_param line "execute_command" = some p) :
    containsSub line "execute_command(" = true ∨
    containsSub line "execute_command:" = true := by
  cases hfp : strFind? line ("execute_command" ++ "(") with
  | some s =>
    left
    have hfp0 : strFind? line "execute_command(" = some s := hfp
    unfold containsSub
    rw [hfp0]
    rfl
  | none =>
    cases hfc : strFind? line ("execute_command" ++ ":") with
    | some s =>
      right
      have hfc0 : strFind? line "execute_command:" = some s := hfc
      unfold containsSub
      rw [hfc0]
      rfl
    | none =>
      exfalso
      unfold ResponseParser.extract_tool_param at h
      rw [hfp, hfc] at h
      simp at h

theorem c9_only_standard_forms_recognized_witness :
    containsSub "execute_command(\"ls\")" "execute_command(" = true ∨
    containsSub "execute_command(\"ls\")" "execute_command:" = true := by
  exact c9_only_standard_forms_recognized "execute_command(\"ls\")" "ls" (by decide)

/-! ## Claim about `TPMLimiter` (limiter.rs) -/

/-- C7: with `max_tokens_per_minute = 100` and usages of 60 tokens at `t0`
and 50 tokens at `t0 + 1s`, `wait_if_needed` at `t0 + 2s` computes the
non-zero wait `60s - 2s + 100ms` (the time until the oldest window entry ages
out of the 60-second window, plus the safety margin), and the reported window
sum at `t0 + 61s` is 50 — only the second entry still counts. -/
theorem c7_limiter_window_scenario (t0 : Int) :
    (TPMLimiter.wait_if_needed
      (TPMLimiter.add_token_usage
        (TPMLimiter.add_token_usage (TPMLimiter.new 100 0) t0 60) (t0 + 1000) 50)
      (t0 + 2000)).1 = 60000 - 2000 + 100 ∧
    (TPMLimiter.wait_if_needed
      (TPMLimiter.add_token_usage
        (TPMLimiter.add_token_usage (TPMLimiter.new 100 0) t0 60) (t0 + 1000) 50)
      (t0 + 2000)).1 ≠ 0 ∧
    TPMLimiter.get_current_tpm
      (TPMLimiter.add_token_usage
        (TPMLimiter.add_token_usage (TPMLimiter.new 100 0) t0 60) (t0 + 1000) 50)
      (t0 + 61000) = 50 := by
  have h1 : TPMLimiter.add_token_usage (TPMLimiter.new 100 0) t0 60 =
      { max_tpm := 100, min_interval := 0, token_usage := [(t0, 60)],
        last_request := none } := by
    unfold TPMLimiter.new TPMLimiter.add_token_usage
    simp only [List.nil_append, TPMLimiter.dropOld]
    rw [if_neg (by omega)]
    norm_num
  have h2 : TPMLimiter.add_token_usage
      (TPMLimiter.add_token_usage (TPMLimiter.new 100 0) t0 60) (t0 + 1000) 50 =
      { max_tpm := 100, min_interval := 0,
        token_usage := [(t0, 60), (t0 + 1000, 50)], last_request := none } := by
    rw [h1]
    unfold TPMLimiter.add_token_usage
    simp only [List.cons_append, List.nil_append, TPMLimiter.dropOld]
    rw [if_neg (by omega)]
    simp
  rw [h2]
  have htpm2 : TPMLimiter.get_current_tpm
      { max_tpm := 100, min_interval := 0,
        token_usage := [(t0, 60), (t0 + 1000, 50)], last_request := none }
      (t0 + 2000 + 0) = 110 := by
    unfold TPMLimiter.get_current_tpm
    simp only [List.filter_cons, List.filter_nil]
    rw [if_pos (by rw [decide_eq_true_eq]; omega),
      if_pos (by rw [decide_eq_true_eq]; omega)]
    rfl
  have htpm61 : TPMLimiter.get_current_tpm
      { max_tpm := 100, min_interval := 0,
        token_usage := [(t0, 60), (t0 + 1000, 50)], last_request := none }
      (t0 + 61000) = 50 := by
    unfold TPMLimiter.get_current_tpm
    simp only [List.filter_cons, List.filter_nil]
    rw [if_neg (by rw [decide_eq_true_eq]; omega),
      if_pos (by rw [decide_eq_true_eq]; omega)]
    rfl
  refine ⟨?_, ?_, htpm61⟩ <;>
  · unfold TPMLimiter.wait_if_needed
    simp only [htpm2]
    rw [if_pos (by omega), if_pos (by constructor <;> omega)]
    omega
